import Mathlib

/-!
Verification of the `Parallel` bounded-concurrency task runner of the
mongo-stress-test repository.

The runner under verification is the `Parallel` class that the repository
exports via `module.exports` and that `src/index.js` loads as
`require('./utils/parallel')`.  (The repository also carries a second,
older copy of the class; that copy is not exported, is not required by any
entry point, and its `pause` method contains `await` inside a non-async
arrow function, so the file cannot even be parsed by a JavaScript engine.
The exported variant is therefore the authority for the program's
behaviour.)

The embedding below is a faithful state-machine translation of the
exported class.  JavaScript runs the class on a single-threaded event
loop, so every synchronous stretch of code between two `await` suspension
points executes atomically.  The class has exactly these atomic blocks:

* the constructor followed by `start()` (run back to back by the static
  `Parallel.create`) — `construct` / `start` / `create` below;
* the synchronous prefix of `_consume()` up to `await this._handler(...)`,
  which increments `_processing`, increments `_offset` and invokes the
  handler with the incremented offset — `consumeStart` below;
* the continuation of `_consume()` after the handler settles (including
  the `catch` branch when the handler rejected), which decrements
  `_processing`, possibly calls the registered finish handler, and
  possibly re-enters `_consume()` — `consumeFinish` below;
* the bodies of `pause()`, `resume()` and `waitFinish()` — `pause`,
  `resume`, `waitFinish` below.

A run of the program is an arbitrary interleaving of these atomic blocks,
modelled by the `Step` relation: at any point the event loop may run the
continuation of one of the in-flight handler invocations (with either
outcome, since the handler is caller-supplied), or the caller may invoke
`pause`, `resume` or `waitFinish`.

Machine integers: the counters are ordinary JavaScript numbers used as
nonnegative integers far below 2^53, so they are embedded as `Nat`; every
subtraction performed by the source (`this._count - this._concurrency`)
is only reached where the result is nonnegative, which the invariants
below make explicit, so `Nat` truncated subtraction coincides with the
source's arithmetic.
-/

/-- Instance state of the `Parallel` class, together with the observable
history of a run.  The first six fields are the object's own fields
(`_count`, `_concurrency`, `_offset`, `_processing`, `_paused`, and
whether `_finishHandler` is non-null).  The last three fields record what
the environment observes: `dispatched` lists, in call order, the argument
of every handler invocation; `fires` counts the invocations of the
registered `_finishHandler`; `errors` lists the offsets logged by the
`catch` branch for failed handler invocations. -/
structure ParState where
  count : Nat
  concurrency : Nat
  offset : Nat
  processing : Nat
  paused : Bool
  registered : Bool
  dispatched : List Nat
  fires : Nat
  errors : List Nat
  deriving Repr, DecidableEq

namespace Parallel

/-- JavaScript `options.concurrency || options.count`: an absent
(`undefined`) or zero `concurrency` option is falsy and is replaced by
`count`. -/
def jsOr (copt : Option Nat) (count : Nat) : Nat :=
  match copt with
  | none => count
  | some c => if c = 0 then count else c

/-- The constructor: `_concurrency = options.concurrency || options.count`,
all counters zeroed, followed by the clamp
`if (this._count < this._concurrency) this._concurrency = this._count`. -/
def construct (count : Nat) (copt : Option Nat) : ParState :=
  let c0 := jsOr copt count
  { count := count
    concurrency := if count < c0 then count else c0
    offset := 0
    processing := 0
    paused := false
    registered := false
    dispatched := []
    fires := 0
    errors := [] }

/-- Synchronous prefix of `_consume()`: `this._processing++`,
`this._offset++`, then the handler is invoked with the incremented
`this._offset` (recorded in `dispatched`).  The whole prefix runs
atomically on the event loop before the `await` suspends. -/
def consumeStart (s : ParState) : ParState :=
  { s with
    processing := s.processing + 1
    offset := s.offset + 1
    dispatched := s.dispatched ++ [s.offset + 1] }

/-- The method `start()`: `for (let i = 0; i < this._concurrency; i++)
this._consume()`.  Each loop iteration runs the synchronous prefix of one
`_consume` before the next iteration begins. -/
def start (s : ParState) : ParState :=
  consumeStart^[s.concurrency] s

/-- The static `Parallel.create(handler, count, concurrency)`: constructs
the instance and immediately calls `start()` before returning it, so a
caller only ever observes states reached from `create`. -/
def create (count : Nat) (copt : Option Nat) : ParState :=
  start (construct count copt)

/-- Continuation of `_consume()` after `await this._handler(this._offset)`
settles, run atomically: if the handler rejected (`ok = false`) the
`catch` logs the current `this._offset`; then `this._processing--`; then
`if (this._offset === this._count)` the registered finish handler, if
any, is invoked (and is not cleared); `else if (!this._paused &&
this._offset + this._processing < this._count)` a new `_consume()` is
entered, whose synchronous prefix runs within the same atomic block. -/
def consumeFinish (ok : Bool) (s : ParState) : ParState :=
  let s1 := if ok then s else { s with errors := s.errors ++ [s.offset] }
  let s2 := { s1 with processing := s1.processing - 1 }
  if s2.offset = s2.count then
    if s2.registered then { s2 with fires := s2.fires + 1 } else s2
  else if s2.paused = false ∧ s2.offset + s2.processing < s2.count then
    consumeStart s2
  else
    s2

/-- Result of a `pause()` call: the state after the call, whether the
returned promise was `Promise.resolve()` (already resolved at return),
and whether `console.warn` was emitted. -/
structure PauseResult where
  state : ParState
  resolvedNow : Bool
  warned : Bool
  deriving Repr, DecidableEq

/-- Result of a `resume()` call: the state after the call, whether the
call was accepted (`false` is returned to the caller otherwise), and
whether `console.warn` was emitted. -/
structure ResumeResult where
  state : ParState
  accepted : Bool
  warned : Bool
  deriving Repr, DecidableEq

/-- Result of a `waitFinish()` call: the state after the call and whether
the returned promise was already resolved at return. -/
structure WaitResult where
  state : ParState
  resolvedNow : Bool
  deriving Repr, DecidableEq

/-- In the guard of `pause()`, the expression `this.pause` denotes the
`pause` method itself — a function object, which is always truthy in
JavaScript. -/
def pauseMethodTruthy : Bool := true

/-- The guard of `pause()`: `this._processing === 0 || this.pause`. -/
def pauseGuard (s : ParState) : Bool :=
  decide (s.processing = 0) || pauseMethodTruthy

/-- The method `pause()`: when the guard holds it warns and returns
`Promise.resolve()` without touching any field; otherwise it would set
`_paused = true` and return a promise that polls until `_processing`
reaches zero. -/
def pause (s : ParState) : PauseResult :=
  if pauseGuard s then
    { state := s, resolvedNow := true, warned := true }
  else
    { state := { s with paused := true }, resolvedNow := false, warned := false }

/-- The method `resume()`: rejected with `console.warn` and return value
`false` while `this._processing > 0`; otherwise it clears `_paused`, sets
`_concurrency = Math.min(this._concurrency, this._count -
this._concurrency)` and runs that many `_consume()` prefixes. -/
def resume (s : ParState) : ResumeResult :=
  if 0 < s.processing then
    { state := s, accepted := false, warned := true }
  else
    let c := min s.concurrency (s.count - s.concurrency)
    { state := consumeStart^[c] { s with paused := false, concurrency := c }
      accepted := true
      warned := false }

/-- The method `waitFinish()`: `if (this._offset === this._count)` it
returns `Promise.resolve()`; otherwise it stores the new promise's
resolver in `this._finishHandler`. -/
def waitFinish (s : ParState) : WaitResult :=
  if s.offset = s.count then
    { state := s, resolvedNow := true }
  else
    { state := { s with registered := true }, resolvedNow := false }

/-- One atomic event-loop turn of a run: either the continuation of one
in-flight handler invocation runs (with either handler outcome), or the
caller invokes `waitFinish`, `pause` or `resume`. -/
inductive Step : ParState → ParState → Prop
  | finish (ok : Bool) (s : ParState) (h : 0 < s.processing) :
      Step s (consumeFinish ok s)
  | wait (s : ParState) : Step s (waitFinish s).state
  | pauseCall (s : ParState) : Step s (pause s).state
  | resumeCall (s : ParState) : Step s (resume s).state

/-- Reachability along arbitrary atomic turns. -/
def Reachable : ParState → ParState → Prop :=
  Relation.ReflTransGen Step

/-- One atomic turn of a quiet run: the handler never fails and the
caller invokes only `waitFinish` (neither `pause` nor `resume` is ever
called). -/
inductive QuietStep : ParState → ParState → Prop
  | finish (s : ParState) (h : 0 < s.processing) :
      QuietStep s (consumeFinish true s)
  | wait (s : ParState) : QuietStep s (waitFinish s).state

/-- Reachability along quiet turns. -/
def QuietReach : ParState → ParState → Prop :=
  Relation.ReflTransGen QuietStep

/-- Inductive invariant of every run started by `Parallel.create`, with
`total` the construction count and `c0` the concurrency computed at
construction. -/
def Inv (total c0 : Nat) (t : ParState) : Prop :=
  t.count = total ∧
  t.paused = false ∧
  t.concurrency ≤ c0 ∧
  t.concurrency ≤ total ∧
  t.processing ≤ t.concurrency ∧
  (t.processing = 0 → total ≤ t.offset) ∧
  t.fires ≤ 1 ∧
  (t.fires = 1 → t.registered = true) ∧
  (t.offset < total → t.fires = 0) ∧
  (t.registered = true → t.offset = total → t.processing + t.fires ≤ 1) ∧
  (t.registered = true → t.offset = total → t.processing = 0 → t.fires = 1)

/-- Inductive invariant of a quiet run (handler never fails, neither
`pause` nor `resume` ever called): the dispatched indices are exactly the
gapless sequence `1, 2, ..., offset`, the cursor never passes `total`, and
the cursor can only rest (no unit in flight) at `total`. -/
def QInv (total : Nat) (t : ParState) : Prop :=
  t.count = total ∧
  t.paused = false ∧
  t.dispatched = List.range' 1 t.offset ∧
  t.offset ≤ total ∧
  (t.processing = 0 → t.offset = total)

/-- Invariant of every runner constructed with `count = 0`: nothing is
ever dispatched and both counters stay at zero. -/
def ZeroInv (t : ParState) : Prop :=
  t.count = 0 ∧ t.offset = 0 ∧ t.processing = 0 ∧ t.dispatched = []

/-- Terminal state of the complete run of `Parallel.create` with
`count = 4` and `concurrency = 3`: the three initially claimed units
finish one after another (the first two slots stop because
`_offset + _processing < _count` fails, the third claims index 4), then
the unit for index 4 finishes. -/
def resumeBugRun : ParState :=
  consumeFinish true (consumeFinish true (consumeFinish true
    (consumeFinish true (create 4 (some 3)))))

end Parallel

namespace Parallel

lemma jsOr_eq_zero {copt : Option Nat} {count : Nat} (h : jsOr copt count = 0) :
    count = 0 := by
  cases copt with
  | none => simpa [jsOr] using h
  | some c =>
    simp only [jsOr] at h
    split at h
    · exact h
    · omega

lemma construct_concurrency (count : Nat) (copt : Option Nat) :
    (construct count copt).concurrency = min (jsOr copt count) count := by
  simp only [construct]
  split <;> omega

lemma construct_concurrency_le (count : Nat) (copt : Option Nat) :
    (construct count copt).concurrency ≤ count := by
  rw [construct_concurrency]
  exact Nat.min_le_right _ _

lemma construct_concurrency_eq_zero {count : Nat} {copt : Option Nat}
    (h : (construct count copt).concurrency = 0) : count = 0 := by
  rw [construct_concurrency] at h
  have h' : jsOr copt count = 0 ∨ count = 0 := by omega
  rcases h' with h' | h'
  · exact jsOr_eq_zero h'
  · exact h'

lemma consumeStart_iterate (n : Nat) (s : ParState) :
    consumeStart^[n] s =
      { s with
        offset := s.offset + n
        processing := s.processing + n
        dispatched := s.dispatched ++ List.range' (s.offset + 1) n } := by
  induction n generalizing s with
  | zero => simp
  | succ n ih =>
    rw [Function.iterate_succ_apply', ih]
    have h : List.range' (s.offset + 1) (n + 1)
        = List.range' (s.offset + 1) n ++ [s.offset + 1 + n] := by
      simpa using @List.range'_concat 1 (s.offset + 1) n
    rw [h]
    simp only [consumeStart]
    have e : s.offset + n + 1 = s.offset + 1 + n := by omega
    rw [List.append_assoc, e]
    simp only [ParState.mk.injEq, List.append_assoc, and_true, true_and]
    omega

lemma create_eq (count : Nat) (copt : Option Nat) :
    create count copt =
      { count := count
        concurrency := (construct count copt).concurrency
        offset := (construct count copt).concurrency
        processing := (construct count copt).concurrency
        paused := false
        registered := false
        dispatched := List.range' 1 (construct count copt).concurrency
        fires := 0
        errors := [] } := by
  rw [create, start, consumeStart_iterate]
  simp [construct]

end Parallel

namespace Parallel

lemma consumeFinish_false (s : ParState) :
    consumeFinish false s
      = { consumeFinish true s with errors := s.errors ++ [s.offset] } := by
  cases s with
  | mk cnt conc off proc pau reg disp fir err =>
    simp only [consumeFinish, consumeStart]
    by_cases h1 : off = cnt
    · by_cases h2 : reg
      · simp [h1, h2]
      · simp [h1, h2]
    · by_cases h3 : pau = false ∧ off + (proc - 1) < cnt
      · simp [h1, h3]
      · simp [h1, h3]

lemma pauseGuard_eq_true (s : ParState) : pauseGuard s = true := by
  simp [pauseGuard, pauseMethodTruthy]

lemma pause_eq (s : ParState) :
    pause s = { state := s, resolvedNow := true, warned := true } := by
  simp [pause, pauseGuard_eq_true]

lemma Inv_errors (total c0 : Nat) (t : ParState) (e : List Nat) :
    Inv total c0 { t with errors := e } ↔ Inv total c0 t := Iff.rfl

lemma inv_consumeFinish_true (total c0 : Nat) (s : ParState)
    (hs : Inv total c0 s) (hp : 0 < s.processing) :
    Inv total c0 (consumeFinish true s) := by
  cases s with
  | mk cnt conc off proc pau reg disp fir err =>
    simp only [Inv] at hs
    simp only at hp
    obtain ⟨h1, h2, h3, h4, h5, h6, h7, h8, h9, h10, h11⟩ := hs
    simp only [consumeFinish, consumeStart, if_true]
    by_cases hoc : off = cnt
    · by_cases hreg : reg = true
      · rw [if_pos hoc, if_pos hreg]
        have key : proc + fir ≤ 1 := h10 hreg (by omega)
        dsimp only [Inv]
        exact ⟨h1, h2, h3, h4, by omega, by omega, by omega, fun _ => hreg,
          by omega, fun _ _ => by omega, fun _ _ _ => by omega⟩
      · rw [if_pos hoc, if_neg hreg]
        dsimp only [Inv]
        exact ⟨h1, h2, h3, h4, by omega, by omega, h7, h8, h9,
          fun hr => absurd hr hreg, fun hr => absurd hr hreg⟩
    · by_cases hcond : pau = false ∧ off + (proc - 1) < cnt
      · rw [if_neg hoc, if_pos hcond]
        dsimp only [Inv]
        refine ⟨h1, h2, h3, h4, by omega, by omega, h7, h8, ?_, ?_, ?_⟩
        · intro h
          exact h9 (by omega)
        · intro hr he
          have hf : fir = 0 := h9 (by omega)
          have hlt := hcond.2
          omega
        · intro hr he h0
          omega
      · rw [if_neg hoc, if_neg hcond]
        have hge : cnt ≤ off + (proc - 1) := by
          by_contra hlt
          exact hcond ⟨h2, by omega⟩
        dsimp only [Inv]
        exact ⟨h1, h2, h3, h4, by omega, by omega, h7, h8, h9,
          fun hr he => absurd (by omega : off = cnt) hoc,
          fun hr he h0 => absurd (by omega : off = cnt) hoc⟩

lemma inv_consumeFinish (total c0 : Nat) (ok : Bool) (s : ParState)
    (hs : Inv total c0 s) (hp : 0 < s.processing) :
    Inv total c0 (consumeFinish ok s) := by
  cases ok with
  | true => exact inv_consumeFinish_true total c0 s hs hp
  | false =>
    rw [consumeFinish_false, Inv_errors]
    exact inv_consumeFinish_true total c0 s hs hp

lemma inv_wait (total c0 : Nat) (s : ParState) (hs : Inv total c0 s) :
    Inv total c0 (waitFinish s).state := by
  cases s with
  | mk cnt conc off proc pau reg disp fir err =>
    simp only [Inv] at hs
    obtain ⟨h1, h2, h3, h4, h5, h6, h7, h8, h9, h10, h11⟩ := hs
    simp only [waitFinish]
    by_cases hoc : off = cnt
    · rw [if_pos hoc]
      exact ⟨h1, h2, h3, h4, h5, h6, h7, h8, h9, h10, h11⟩
    · rw [if_neg hoc]
      dsimp only [Inv]
      exact ⟨h1, h2, h3, h4, h5, h6, h7, fun _ => rfl, h9,
        fun hr he => absurd (by omega : off = cnt) hoc,
        fun hr he h0 => absurd (by omega : off = cnt) hoc⟩

lemma inv_pause (total c0 : Nat) (s : ParState) (hs : Inv total c0 s) :
    Inv total c0 (pause s).state := by
  rw [pause_eq]
  exact hs

lemma inv_resume (total c0 : Nat) (s : ParState) (hs : Inv total c0 s) :
    Inv total c0 (resume s).state := by
  cases s with
  | mk cnt conc off proc pau reg disp fir err =>
    simp only [Inv] at hs
    obtain ⟨h1, h2, h3, h4, h5, h6, h7, h8, h9, h10, h11⟩ := hs
    simp only [resume]
    by_cases hp : 0 < proc
    · rw [if_pos hp]
      exact ⟨h1, h2, h3, h4, h5, h6, h7, h8, h9, h10, h11⟩
    · rw [if_neg hp]
      have hoff : total ≤ off := h6 (by omega)
      dsimp only
      rw [consumeStart_iterate]
      dsimp only [Inv]
      refine ⟨h1, rfl, by omega, by omega, by omega, by omega, h7, h8,
        ?_, ?_, ?_⟩
      · intro h
        omega
      · intro hr he
        omega
      · intro hr he h0
        exact h11 hr (by omega) (by omega)

lemma inv_step (total c0 : Nat) (s t : ParState) (hs : Inv total c0 s)
    (hstep : Step s t) : Inv total c0 t := by
  cases hstep with
  | finish ok s h => exact inv_consumeFinish total c0 ok s hs h
  | wait s => exact inv_wait total c0 s hs
  | pauseCall s => exact inv_pause total c0 s hs
  | resumeCall s => exact inv_resume total c0 s hs

lemma inv_create (total : Nat) (copt : Option Nat) :
    Inv total (construct total copt).concurrency (create total copt) := by
  rw [create_eq]
  dsimp only [Inv]
  refine ⟨rfl, rfl, Nat.le_refl _, construct_concurrency_le total copt,
    Nat.le_refl _, ?_, by omega, ?_, fun _ => rfl, ?_, ?_⟩
  · intro h
    have := construct_concurrency_eq_zero h
    omega
  · intro h
    exact absurd h (by omega)
  · intro hr
    exact absurd hr (by simp)
  · intro hr
    exact absurd hr (by simp)

lemma inv_reachable (total : Nat) (copt : Option Nat) (t : ParState)
    (h : Reachable (create total copt) t) :
    Inv total (construct total copt).concurrency t := by
  induction h with
  | refl => exact inv_create total copt
  | tail hr hs ih => exact inv_step _ _ _ _ ih hs

end Parallel

namespace Parallel

lemma qinv_consumeFinish_true (total : Nat) (s : ParState)
    (hs : QInv total s) (hp : 0 < s.processing) :
    QInv total (consumeFinish true s) := by
  cases s with
  | mk cnt conc off proc pau reg disp fir err =>
    simp only [QInv] at hs
    simp only at hp
    obtain ⟨h1, h2, h3, h4, h5⟩ := hs
    simp only [consumeFinish, consumeStart, if_true]
    by_cases hoc : off = cnt
    · rw [if_pos hoc]
      by_cases hreg : reg = true
      · rw [if_pos hreg]
        dsimp only [QInv]
        exact ⟨h1, h2, h3, h4, fun _ => by omega⟩
      · rw [if_neg hreg]
        dsimp only [QInv]
        exact ⟨h1, h2, h3, h4, fun _ => by omega⟩
    · by_cases hcond : pau = false ∧ off + (proc - 1) < cnt
      · rw [if_neg hoc, if_pos hcond]
        dsimp only [QInv]
        have hr : List.range' 1 (off + 1) = List.range' 1 off ++ [off + 1] := by
          have h0 := @List.range'_concat 1 1 off
          simpa [Nat.add_comm] using h0
        refine ⟨h1, h2, ?_, by omega, fun h0 => by omega⟩
        rw [hr, h3]
      · rw [if_neg hoc, if_neg hcond]
        have hge : cnt ≤ off + (proc - 1) := by
          by_contra hlt
          exact hcond ⟨h2, by omega⟩
        dsimp only [QInv]
        exact ⟨h1, h2, h3, h4, fun h0 => by omega⟩

lemma qinv_wait (total : Nat) (s : ParState) (hs : QInv total s) :
    QInv total (waitFinish s).state := by
  obtain ⟨h1, h2, h3, h4, h5⟩ := hs
  simp only [waitFinish]
  split
  · exact ⟨h1, h2, h3, h4, h5⟩
  · exact ⟨h1, h2, h3, h4, h5⟩

lemma qinv_step (total : Nat) (s t : ParState) (hs : QInv total s)
    (hstep : QuietStep s t) : QInv total t := by
  cases hstep with
  | finish h => exact qinv_consumeFinish_true total s hs h
  | wait => exact qinv_wait total s hs

lemma qinv_create (total : Nat) (copt : Option Nat) (h1 : 1 ≤ total) :
    QInv total (create total copt) := by
  rw [create_eq]
  dsimp only [QInv]
  refine ⟨rfl, rfl, rfl, construct_concurrency_le total copt, ?_⟩
  intro h
  have := construct_concurrency_eq_zero h
  omega

lemma qinv_reachable (total : Nat) (copt : Option Nat) (h1 : 1 ≤ total)
    (t : ParState) (h : QuietReach (create total copt) t) :
    QInv total t := by
  induction h with
  | refl => exact qinv_create total copt h1
  | tail hr hs ih => exact qinv_step total _ _ ih hs

lemma zeroinv_step (s u : ParState) (hs : ZeroInv s) (h : Step s u) :
    ZeroInv u := by
  obtain ⟨hc, ho, hp, hd⟩ := hs
  cases h with
  | finish ok s h => exact absurd h (by omega)
  | wait s =>
    have he : waitFinish s = { state := s, resolvedNow := true } := by
      simp [waitFinish, ho, hc]
    rw [he]
    exact ⟨hc, ho, hp, hd⟩
  | pauseCall s =>
    rw [pause_eq]
    exact ⟨hc, ho, hp, hd⟩
  | resumeCall s =>
    simp only [resume]
    rw [if_neg (by omega)]
    have hc0 : min s.concurrency (s.count - s.concurrency) = 0 := by omega
    dsimp only
    rw [consumeStart_iterate, hc0]
    dsimp only [ZeroInv]
    simp [hc, ho, hp, hd]

lemma zeroinv_create (copt : Option Nat) : ZeroInv (create 0 copt) := by
  have hc0 : (construct 0 copt).concurrency = 0 := by
    rw [construct_concurrency]
    omega
  rw [create_eq]
  dsimp only [ZeroInv]
  simp [hc0]

lemma zeroinv_reachable (copt : Option Nat) (t : ParState)
    (h : Reachable (create 0 copt) t) : ZeroInv t := by
  induction h with
  | refl => exact zeroinv_create copt
  | tail hr hs ih => exact zeroinv_step _ _ ih hs

end Parallel

namespace Parallel

lemma fires_finish_true (s : ParState)
    (h : s.fires < (consumeFinish true s).fires) :
    s.offset = s.count ∧ s.registered = true ∧
    (consumeFinish true s).fires = s.fires + 1 ∧
    (consumeFinish true s).processing = s.processing - 1 ∧
    (consumeFinish true s).offset = s.offset := by
  cases s with
  | mk cnt conc off proc pau reg disp fir err =>
    simp only [consumeFinish, consumeStart, if_true] at h ⊢
    by_cases hoc : off = cnt
    · by_cases hreg : reg = true
      · rw [if_pos hoc, if_pos hreg] at h ⊢
        exact ⟨hoc, hreg, rfl, rfl, rfl⟩
      · rw [if_pos hoc, if_neg hreg] at h
        dsimp only at h
        exact absurd h (by omega)
    · by_cases hcond : pau = false ∧ off + (proc - 1) < cnt
      · rw [if_neg hoc, if_pos hcond] at h
        dsimp only at h
        exact absurd h (by omega)
      · rw [if_neg hoc, if_neg hcond] at h
        dsimp only at h
        exact absurd h (by omega)

lemma fires_finish (ok : Bool) (s : ParState)
    (h : s.fires < (consumeFinish ok s).fires) :
    s.offset = s.count ∧ s.registered = true ∧
    (consumeFinish ok s).fires = s.fires + 1 ∧
    (consumeFinish ok s).processing = s.processing - 1 ∧
    (consumeFinish ok s).offset = s.offset := by
  cases ok with
  | true => exact fires_finish_true s h
  | false =>
    rw [consumeFinish_false] at h ⊢
    dsimp only at h ⊢
    exact fires_finish_true s h

lemma waitFinish_fires (s : ParState) :
    (waitFinish s).state.fires = s.fires := by
  simp only [waitFinish]
  split
  · rfl
  · rfl

lemma resume_fires (s : ParState) :
    (resume s).state.fires = s.fires := by
  simp only [resume]
  split
  · rfl
  · dsimp only
    rw [consumeStart_iterate]

lemma fires_step (s u : ParState) (hstep : Step s u) (hf : s.fires < u.fires) :
    s.offset = s.count ∧ s.registered = true ∧ u.fires = s.fires + 1 ∧
    u.processing = s.processing - 1 ∧ u.offset = s.offset := by
  cases hstep with
  | finish ok s h => exact fires_finish ok s hf
  | wait s =>
    rw [waitFinish_fires] at hf
    exact absurd hf (by omega)
  | pauseCall s =>
    rw [pause_eq] at hf
    dsimp only at hf
    exact absurd hf (by omega)
  | resumeCall s =>
    rw [resume_fires] at hf
    exact absurd hf (by omega)

end Parallel

namespace Parallel

/-- C1: for every runner constructed with `total ≥ 1` (the effective
concurrency then automatically satisfies `1 ≤ limit ≤ total`), along any
run in which the handler never fails and pause is never called, the
indices handed to the handler always form the gapless strictly increasing
sequence `1, 2, ..., offset` with `offset ≤ total`, every dispatched index
is 1-based and lies in `[1, total]`, and as soon as no unit is in flight
every index of `[1, total]` has been dispatched exactly once (none twice,
none skipped). -/
theorem claim_each_index_dispatched_once (total : Nat) (copt : Option Nat)
    (h1 : 1 ≤ total) (t : ParState)
    (hr : QuietReach (create total copt) t) :
    t.dispatched = List.range' 1 t.offset ∧
    t.offset ≤ total ∧
    List.Chain' (fun a b => a < b) t.dispatched ∧
    (∀ i, i ∈ t.dispatched → 1 ≤ i ∧ i ≤ total) ∧
    (t.processing = 0 →
      t.dispatched = List.range' 1 total ∧
      ∀ i, 1 ≤ i → i ≤ total → t.dispatched.count i = 1) := by
  obtain ⟨hc, hpa, hd, hoff, hdone⟩ := qinv_reachable total copt h1 t hr
  refine ⟨hd, hoff, ?_, ?_, ?_⟩
  · rw [hd]
    apply List.Pairwise.chain'
    have h := List.pairwise_lt_range' 1 t.offset 1
    simpa using h
  · intro i hi
    rw [hd] at hi
    have := List.mem_range'_1.mp hi
    omega
  · intro hp
    have he := hdone hp
    constructor
    · rw [hd, he]
    · intro i hi1 hi2
      rw [hd, he]
      exact List.count_eq_one_of_mem (List.nodup_range' 1 total)
        (List.mem_range'_1.mpr ⟨hi1, by omega⟩)

/-- Witness for C1: the quiet run of a runner with `count = 2`,
`concurrency = 1` (start claims index 1; the first completion claims
index 2; the second completion finishes) dispatches exactly `[1, 2]`. -/
theorem claim_each_index_dispatched_once_witness :
    (consumeFinish true (consumeFinish true (create 2 (some 1)))).dispatched
      = List.range' 1 2 := by
  have hreach : QuietReach (create 2 (some 1))
      (consumeFinish true (consumeFinish true (create 2 (some 1)))) :=
    Relation.ReflTransGen.tail
      (Relation.ReflTransGen.tail Relation.ReflTransGen.refl
        (QuietStep.finish _ (by decide)))
      (QuietStep.finish _ (by decide))
  exact ((claim_each_index_dispatched_once 2 (some 1) (by decide) _
    hreach).2.2.2.2 (by decide)).1

/-- C2: along every run of a runner created with `total ≥ 1`, the finish
handler registered by `waitFinish` is invoked at most once; in any
reachable state where it is registered, the cursor equals `total` and no
unit is in flight, it has been invoked exactly once; and every step that
invokes it lands exactly in a state with cursor `= total` and nothing in
flight, so it is never invoked while a claimed unit is still executing. -/
theorem claim_completion_fires_once (total : Nat) (copt : Option Nat)
    (h1 : 1 ≤ total) (t : ParState) (hr : Reachable (create total copt) t) :
    t.fires ≤ 1 ∧
    (t.registered = true → t.offset = total → t.processing = 0 → t.fires = 1) ∧
    (∀ u, Step t u → t.fires < u.fires →
      u.offset = total ∧ u.processing = 0 ∧ u.fires = t.fires + 1) := by
  obtain ⟨g1, g2, g3, g4, g5, g6, g7, g8, g9, g10, g11⟩ :=
    inv_reachable total copt t hr
  refine ⟨g7, g11, ?_⟩
  intro u hstep hf
  obtain ⟨hoc, hreg, hfe, hpe, hoe⟩ := fires_step t u hstep hf
  have hot : t.offset = total := by omega
  have hkey := g10 hreg hot
  exact ⟨by omega, by omega, hfe⟩

/-- Witness for C2: with `count = 2`, `concurrency = 1`, registering
`waitFinish` after creation and finishing both units invokes the
registered handler exactly once. -/
theorem claim_completion_fires_once_witness :
    (consumeFinish true (consumeFinish true
      ((waitFinish (create 2 (some 1))).state))).fires = 1 := by
  have hreach : Reachable (create 2 (some 1))
      (consumeFinish true (consumeFinish true
        ((waitFinish (create 2 (some 1))).state))) :=
    Relation.ReflTransGen.tail
      (Relation.ReflTransGen.tail
        (Relation.ReflTransGen.tail Relation.ReflTransGen.refl (Step.wait _))
        (Step.finish true _ (by decide)))
      (Step.finish true _ (by decide))
  exact (claim_completion_fires_once 2 (some 1) (by decide) _ hreach).2.1
    (by decide) (by decide) (by decide)

/-- C3 fails on the code: in `pause()` the guard `this._processing === 0
|| this.pause` reads the method `this.pause` itself, which is truthy, so
even with a unit in flight (`count = 2`, `concurrency = 1`, index 1
executing) `pause()` warns, returns an already-resolved promise, leaves
`_paused` false and mutates nothing, after which the slot goes on to
claim index 2 as if pause had never been called. -/
theorem claim_pause_noop_bug :
    pauseGuard (create 2 (some 1)) = true ∧
    (create 2 (some 1)).processing = 1 ∧
    pause (create 2 (some 1))
      = { state := create 2 (some 1), resolvedNow := true, warned := true } ∧
    (pause (create 2 (some 1))).state.paused = false ∧
    (consumeFinish true (pause (create 2 (some 1))).state).dispatched
      = [1, 2] := by
  decide

/-- C4 fails on the code: `waitFinish()` resolves immediately whenever
`_offset === _count`, without consulting `_processing`; with `count = 2`,
`concurrency = 2` both indices are claimed at creation, so a `waitFinish`
issued right after `Parallel.create` returns an already-resolved promise
while both claimed units are still executing (`_processing = 2`). -/
theorem claim_waitFinish_early_resolve_bug :
    (create 2 (some 2)).offset = 2 ∧
    (create 2 (some 2)).processing = 2 ∧
    waitFinish (create 2 (some 2))
      = { state := create 2 (some 2), resolvedNow := true } := by
  decide

/-- C5: a failing handler invocation is logged (its offset is appended to
the error log) and is otherwise treated exactly like a successful one —
`consumeFinish false` differs from `consumeFinish true` only in the error
log, so `_processing` is decremented identically and scheduling continues
identically; moreover along any run, failures included, in-flight never
exceeds the concurrency, a resting scheduler has claimed everything, and
at completion a registered `waitFinish` handler has been invoked. -/
theorem claim_resilient_failure (total : Nat) (copt : Option Nat) :
    (∀ s : ParState, consumeFinish false s
        = { consumeFinish true s with errors := s.errors ++ [s.offset] }) ∧
    (∀ t, Reachable (create total copt) t →
      t.processing ≤ t.concurrency ∧
      (t.processing = 0 → total ≤ t.offset) ∧
      (t.registered = true → t.offset = total → t.processing = 0 →
        t.fires = 1)) := by
  refine ⟨consumeFinish_false, ?_⟩
  intro t hr
  obtain ⟨g1, g2, g3, g4, g5, g6, g7, g8, g9, g10, g11⟩ :=
    inv_reachable total copt t hr
  exact ⟨g5, g6, g11⟩

/-- Witness for C5: a failure of the unit claimed by the runner with
`count = 2`, `concurrency = 1` logs offset 1 and leaves every other field
as after a success. -/
theorem claim_resilient_failure_witness :
    consumeFinish false (create 2 (some 1))
      = { consumeFinish true (create 2 (some 1)) with
          errors := (create 2 (some 1)).errors ++ [(create 2 (some 1)).offset] } ∧
    (create 2 (some 1)).processing ≤ (create 2 (some 1)).concurrency :=
  ⟨(claim_resilient_failure 2 (some 1)).1 _,
    ((claim_resilient_failure 2 (some 1)).2 _ Relation.ReflTransGen.refl).1⟩

/-- C6 fails on the code: `resume()` recomputes the relaunch width as
`Math.min(this._concurrency, this._count - this._concurrency)` instead of
the remaining work `min(limit, total - nextIndex)`; after a complete run
of `count = 4`, `concurrency = 3` (cursor 4, nothing in flight) the
claimed formula yields 0 but the code relaunches one slot, claims the
out-of-range index 5, dispatches it to the handler and shrinks
`_concurrency` to 1. -/
theorem claim_resume_relaunch_bug :
    resumeBugRun.offset = 4 ∧ resumeBugRun.processing = 0 ∧
    resumeBugRun.dispatched = [1, 2, 3, 4] ∧
    min resumeBugRun.concurrency (resumeBugRun.count - resumeBugRun.offset) = 0 ∧
    (resume resumeBugRun).accepted = true ∧
    (resume resumeBugRun).state.processing = 1 ∧
    (resume resumeBugRun).state.concurrency = 1 ∧
    (resume resumeBugRun).state.offset = 5 ∧
    (resume resumeBugRun).state.dispatched = [1, 2, 3, 4, 5] := by
  decide

/-- C7: in every reachable state of every runner, the number of in-flight
units is at most the current concurrency, the current concurrency is at
most the concurrency computed at construction, and the constructed
concurrency is the requested one (after the falsy-default) clamped to
`min` with `count`, hence at most `count`. -/
theorem claim_inflight_bounded (count : Nat) (copt : Option Nat)
    (t : ParState) (hr : Reachable (create count copt) t) :
    (construct count copt).concurrency = min (jsOr copt count) count ∧
    t.processing ≤ t.concurrency ∧
    t.concurrency ≤ (construct count copt).concurrency ∧
    (construct count copt).concurrency ≤ count := by
  obtain ⟨g1, g2, g3, g4, g5, g6, g7, g8, g9, g10, g11⟩ :=
    inv_reachable count copt t hr
  exact ⟨construct_concurrency count copt, g5, g3,
    construct_concurrency_le count copt⟩

/-- Witness for C7: a runner requested with `count = 3` and concurrency 5
is clamped to effective concurrency 3, and right after creation 3 units
are in flight, within the bound. -/
theorem claim_inflight_bounded_witness :
    (construct 3 (some 5)).concurrency = min (jsOr (some 5) 3) 3 ∧
    (create 3 (some 5)).processing ≤ (create 3 (some 5)).concurrency ∧
    (create 3 (some 5)).concurrency ≤ (construct 3 (some 5)).concurrency ∧
    (construct 3 (some 5)).concurrency ≤ 3 :=
  claim_inflight_bounded 3 (some 5) _ Relation.ReflTransGen.refl

/-- C8: calling `resume()` while units are in flight is rejected: the
call returns `false`, emits the diagnostic warning and leaves every field
of the runner untouched. -/
theorem claim_resume_rejected_inflight (s : ParState)
    (h : 0 < s.processing) :
    resume s = { state := s, accepted := false, warned := true } := by
  simp only [resume, if_pos h]

/-- Witness for C8: resume right after creating a runner with one unit in
flight is rejected without any state change. -/
theorem claim_resume_rejected_inflight_witness :
    resume (create 2 (some 1))
      = { state := create 2 (some 1), accepted := false, warned := true } :=
  claim_resume_rejected_inflight _ (by decide)

/-- C9: a falsy concurrency option (absent or zero) is replaced by
`count` in the constructor, so creation launches `count` slots — full
fan-out: right after `create` the cursor and the in-flight counter equal
`count` and indices `1..count` have all been dispatched. -/
theorem claim_falsy_concurrency_full_fanout (count : Nat)
    (copt : Option Nat) (h : copt = none ∨ copt = some 0) :
    (construct count copt).concurrency = count ∧
    (create count copt).processing = count ∧
    (create count copt).offset = count ∧
    (create count copt).dispatched = List.range' 1 count := by
  have hc : (construct count copt).concurrency = count := by
    rcases h with h | h <;> subst h <;>
      simp [construct_concurrency, jsOr]
  refine ⟨hc, ?_, ?_, ?_⟩ <;> rw [create_eq] <;> dsimp only <;> rw [hc]

/-- Witness for C9: a runner created with `count = 3` and concurrency
option 0 launches all three slots at once. -/
theorem claim_falsy_concurrency_full_fanout_witness :
    (construct 3 (some 0)).concurrency = 3 ∧
    (create 3 (some 0)).processing = 3 ∧
    (create 3 (some 0)).offset = 3 ∧
    (create 3 (some 0)).dispatched = List.range' 1 3 :=
  claim_falsy_concurrency_full_fanout 3 (some 0) (Or.inr rfl)

/-- C10: a runner constructed with `count = 0` never invokes the handler,
launches no slot, and in every reachable state `waitFinish` returns an
already-resolved promise, because the cursor (0) already equals the
count. -/
theorem claim_zero_count (copt : Option Nat) (t : ParState)
    (hr : Reachable (create 0 copt) t) :
    t.dispatched = [] ∧ t.processing = 0 ∧ t.offset = 0 ∧
    waitFinish t = { state := t, resolvedNow := true } := by
  obtain ⟨hc, ho, hp, hd⟩ := zeroinv_reachable copt t hr
  refine ⟨hd, hp, ho, ?_⟩
  simp [waitFinish, ho, hc]

/-- Witness for C10: the freshly created zero-count runner dispatched
nothing and `waitFinish` resolves immediately. -/
theorem claim_zero_count_witness :
    (create 0 none).dispatched = [] ∧ (create 0 none).processing = 0 ∧
    (create 0 none).offset = 0 ∧
    waitFinish (create 0 none) = { state := create 0 none, resolvedNow := true } :=
  claim_zero_count none _ Relation.ReflTransGen.refl

end Parallel
